import Mathlib

/-!
Verification of the autolink subsystem of `packages/ckeditor5-link/src/autolink.js`.

The pattern matcher `URL_REG_EXP` is embedded as a backtracking recognizer over
`List Char`: every regex fragment becomes a function returning the list of all
possible remainders of the input after that fragment has consumed a prefix, in
the backtracking order of the JavaScript engine.  A candidate string matches the
URL group (group 2 of `URL_REG_EXP`) when some remainder is empty, i.e. some
backtracking path consumes the whole candidate, which is exactly full-match
acceptance of the group that in the source is followed by the `$` anchor.

`RegExp.prototype.exec` with the pattern `(^|\s)(...)$` returns, for the
leftmost viable start position, the capture of group 2, which always extends to
the end of the input; this is embedded in `getUrlAtTextEnd` below as a scan over
start positions: first the whole text (the `^` alternative of group 1), then the
suffix after each whitespace character, left to right.

Stateful orchestration (the `AutoLink` plugin class) is embedded as explicit
state passing over a small editor-state model.  Collaborators that live outside
this repository's `src/` tree (the `./utils` helpers, the engine's position
arithmetic, `getLastTextLine`, the `TextWatcher` firing discipline) are modelled
from the specification; each such definition carries a doc comment saying so.
-/

/-! ## Character classes of `URL_REG_EXP` (JavaScript semantics, `i` flag) -/

/-- JavaScript `\d`: the ASCII digits. -/
def isDigitJS (c : Char) : Bool :=
  '0' ≤ c && c ≤ '9'

/-- An ASCII letter; `[a-z]` under the case-insensitive `i` flag. -/
def isAsciiAlphaCI (c : Char) : Bool :=
  ('a' ≤ c && c ≤ 'z') || ('A' ≤ c && c ≤ 'Z')

/-- JavaScript `\s`: space, tab, line terminators and the Unicode
whitespace code points enumerated by the ECMAScript standard. -/
def isSpaceJS (c : Char) : Bool :=
  c == ' ' || c == '\t' || c == '\n' || c.val == 11 || c.val == 12 || c == '\r' ||
  c.val == 0xa0 || c.val == 0x1680 || (0x2000 ≤ c.val && c.val ≤ 0x200a) ||
  c.val == 0x2028 || c.val == 0x2029 || c.val == 0x202f || c.val == 0x205f ||
  c.val == 0x3000 || c.val == 0xfeff

/-- JavaScript `\S`. -/
def isNonSpaceJS (c : Char) : Bool :=
  !isSpaceJS c

/-- The host/domain label class `[-_a-z0-9¡-￿]` of `URL_REG_EXP`
(with the `i` flag, so ASCII letters of both cases). -/
def isHostLabelChar (c : Char) : Bool :=
  c == '-' || c == '_' || isAsciiAlphaCI c || isDigitJS c ||
  (0xa1 ≤ c.val && c.val ≤ 0xffff)

/-- The TLD class `[a-z¡-￿]` of `URL_REG_EXP` (with the `i` flag). -/
def isTldChar (c : Char) : Bool :=
  isAsciiAlphaCI c || (0xa1 ≤ c.val && c.val ≤ 0xffff)

/-- The `.` metacharacter without the `s` flag: any character except the
four ECMAScript line terminators.  (Group 2's short form spells `www.` with an
unescaped dot, so this class is reachable from the source pattern.) -/
def isDotAnyJS (c : Char) : Bool :=
  !(c == '\n' || c == '\r' || c.val == 0x2028 || c.val == 0x2029)

/-! ## Backtracking combinators: a fragment maps an input to the list of
possible remainders, in backtracking priority order. -/

/-- The type of regex-fragment recognizers. -/
abbrev Frag := List Char → List (List Char)

/-- Consume one character of a class. -/
def pchar (p : Char → Bool) : Frag
  | [] => []
  | c :: rest => if p c then [rest] else []

/-- Consume one exact character (case-sensitive, for `:./?#@` etc.). -/
def pexact (a : Char) : Frag :=
  pchar (fun c => c == a)

/-- Consume a literal word case-insensitively (the `i` flag applied to
literal letters such as `http`, `ftp`, `www`). -/
def plitCI : List Char → Frag
  | [], s => [s]
  | _ :: _, [] => []
  | a :: as, c :: rest => if a.toLower == c.toLower then plitCI as rest else []

/-- Sequencing of two fragments. -/
def pseq (f g : Frag) : Frag :=
  fun s => (f s).flatMap g

/-- Alternation, left alternative first (backtracking order). -/
def palt (f g : Frag) : Frag :=
  fun s => f s ++ g s

/-- Greedy `?`: try consuming first, then the empty alternative. -/
def popt (f : Frag) : Frag :=
  fun s => f s ++ [s]

/-- Greedy `*` over a character class: all remainders after consuming a
(possibly empty) run of class characters, longest-first order is irrelevant
for acceptance so remainders are listed shortest-consumption first. -/
def pstarChar (p : Char → Bool) : Frag
  | [] => [[]]
  | c :: rest => (c :: rest) :: (if p c then pstarChar p rest else [])

/-- Repetition `+` over a character class: at least one class character. -/
def pplusChar (p : Char → Bool) : Frag
  | [] => []
  | c :: rest => if p c then pstarChar p rest else []

/-- Bounded repetition `{lo,hi}` over a character class: consume between
`lo` and `hi` class characters. -/
def prepChar (p : Char → Bool) : Nat → Nat → Frag
  | lo, _, [] => if lo == 0 then [[]] else []
  | lo, 0, s => if lo == 0 then [s] else []
  | lo, hi + 1, c :: rest =>
    (if lo == 0 then [c :: rest] else []) ++
    (if p c then prepChar p (lo - 1) hi rest else [])

/-- Zero-width negative lookahead over a single-character class, as in
`(?![-_])`: succeeds (consuming nothing) unless the next character is in the
class; at end of input there is no next character, so it succeeds. -/
def pnotCharAhead (p : Char → Bool) : Frag
  | [] => [[]]
  | c :: rest => if p c then [] else [c :: rest]

/-- Does the input start with `www.` (letters case-insensitive, literal dot)?
Support for the `(?!www\.)` lookahead. -/
def startsWithWwwDot : List Char → Bool
  | a :: b :: c :: d :: _ =>
    a.toLower == 'w' && b.toLower == 'w' && c.toLower == 'w' && d == '.'
  | _ => false

/-- The zero-width negative lookahead `(?!www\.)`. -/
def pnotWwwDot : Frag :=
  fun s => if startsWithWwwDot s then [] else [s]

/-! ## The fragments of `URL_REG_EXP`, line by line from the source. -/

/-- Fragment `(?:(?:(?:https?|ftp):)?\/\/)` — optional scheme name, then the
mandatory `//`. -/
def pScheme : Frag :=
  pseq
    (popt (pseq
      (palt
        (pseq (plitCI ['h', 't', 't', 'p']) (popt (plitCI ['s'])))
        (plitCI ['f', 't', 'p']))
      (pexact ':')))
    (pseq (pexact '/') (pexact '/'))

/-- Fragment `(?:\S+(?::\S*)?@)?` — optional BasicAuth userinfo. -/
def pUserinfo : Frag :=
  popt (pseq (pplusChar isNonSpaceJS)
    (pseq (popt (pseq (pexact ':') (pstarChar isNonSpaceJS)))
      (pexact '@')))

/-- First IPv4 octet `(?:[1-9]\d?|1\d\d|2[01]\d|22[0-3])`. -/
def pOctetFirst : Frag :=
  palt (pseq (pchar (fun c => '1' ≤ c && c ≤ '9')) (popt (pchar isDigitJS)))
    (palt (pseq (pexact '1') (pseq (pchar isDigitJS) (pchar isDigitJS)))
      (palt
        (pseq (pexact '2') (pseq (pchar (fun c => c == '0' || c == '1')) (pchar isDigitJS)))
        (pseq (pexact '2') (pseq (pexact '2') (pchar (fun c => '0' ≤ c && c ≤ '3'))))))

/-- Middle IPv4 octet `(?:1?\d{1,2}|2[0-4]\d|25[0-5])`. -/
def pOctetMiddle : Frag :=
  palt (pseq (popt (pexact '1')) (prepChar isDigitJS 1 2))
    (palt
      (pseq (pexact '2') (pseq (pchar (fun c => '0' ≤ c && c ≤ '4')) (pchar isDigitJS)))
      (pseq (pexact '2') (pseq (pexact '5') (pchar (fun c => '0' ≤ c && c ≤ '5')))))

/-- Last IPv4 octet `(?:[1-9]\d?|1\d\d|2[0-4]\d|25[0-4])`. -/
def pOctetLast : Frag :=
  palt (pseq (pchar (fun c => '1' ≤ c && c ≤ '9')) (popt (pchar isDigitJS)))
    (palt (pseq (pexact '1') (pseq (pchar isDigitJS) (pchar isDigitJS)))
      (palt
        (pseq (pexact '2') (pseq (pchar (fun c => '0' ≤ c && c ≤ '4')) (pchar isDigitJS)))
        (pseq (pexact '2') (pseq (pexact '5') (pchar (fun c => '0' ≤ c && c ≤ '4'))))))

/-- The whole dotted IPv4 alternative: first octet, twice `\.` middle octet,
then `\.` last octet. -/
def pIPv4 : Frag :=
  pseq pOctetFirst
    (pseq (pseq (pexact '.') pOctetMiddle)
      (pseq (pseq (pexact '.') pOctetMiddle)
        (pseq (pexact '.') pOctetLast)))

/-- One domain label `[-_a-z0-9¡-￿]{1,63}\.` (label text plus its
trailing dot). -/
def pLabelDot : Frag :=
  pseq (prepChar isHostLabelChar 1 63) (pexact '.')

/-- Fragment `(?:label\.)+` with explicit fuel; each iteration consumes at least the
label's one character and its dot, so fuel `s.length + 1` is never exhausted
on any path that can still consume input. -/
def pLabelDotPlusAux : Nat → Frag
  | 0, _ => []
  | fuel + 1, s => (pLabelDot s).flatMap (fun r => r :: pLabelDotPlusAux fuel r)

/-- Fragment `(?:[-_a-z0-9¡-￿]{1,63}\.)+`. -/
def pLabelDotPlus : Frag :=
  fun s => pLabelDotPlusAux (s.length + 1) s

/-- The full-form domain group
`((?!www\.)|(www\.))(?![-_])(?:[-_a-z0-9¡-￿]{1,63}\.)+(?:[a-z¡-￿]{2,63})`. -/
def pDomainFullForm : Frag :=
  pseq
    (palt pnotWwwDot (pseq (plitCI ['w', 'w', 'w']) (pexact '.')))
    (pseq (pnotCharAhead (fun c => c == '-' || c == '_'))
      (pseq pLabelDotPlus (prepChar isTldChar 2 63)))

/-- Optional port `(?::\d{2,5})?`. -/
def pPort : Frag :=
  popt (pseq (pexact ':') (prepChar isDigitJS 2 5))

/-- Optional resource path `(?:[/?#]\S*)?`. -/
def pPath : Frag :=
  popt (pseq (pchar (fun c => c == '/' || c == '?' || c == '#')) (pstarChar isNonSpaceJS))

/-- Alternative a. of group 2: the full form
`scheme userinfo? (ipv4|domain) port? path?`. -/
def pFullForm : Frag :=
  pseq pScheme
    (pseq pUserinfo
      (pseq (palt pIPv4 pDomainFullForm)
        (pseq pPort pPath)))

/-- The short-form opener `(www.|(\S+@))`; note the unescaped dot of `www.`
in the source, which therefore matches `www` followed by any character. -/
def pShortOpener : Frag :=
  palt (pseq (plitCI ['w', 'w', 'w']) (pchar isDotAnyJS))
    (pseq (pplusChar isNonSpaceJS) (pexact '@'))

/-- One short-form label `(?![-_])(?:[-_a-z0-9¡-￿]{1,63}\.)` —
unlike the full form, the lookahead sits inside the repeated group. -/
def pShortLabelDot : Frag :=
  pseq (pnotCharAhead (fun c => c == '-' || c == '_')) pLabelDot

/-- Fragment `((?![-_])(?:[-_a-z0-9¡-￿]{1,63}\.))+` with fuel as in
`pLabelDotPlusAux`. -/
def pShortLabelDotPlusAux : Nat → Frag
  | 0, _ => []
  | fuel + 1, s => (pShortLabelDot s).flatMap (fun r => r :: pShortLabelDotPlusAux fuel r)

/-- Alternative b. of group 2: the short form. -/
def pShortForm : Frag :=
  pseq pShortOpener
    (pseq (fun s => pShortLabelDotPlusAux (s.length + 1) s)
      (prepChar isTldChar 2 63))

/-- Group 2 of `URL_REG_EXP`: full form, else short form.  The group is
followed by the `$` anchor in the source, so a candidate is accepted exactly
when some backtracking path consumes it entirely. -/
def matchesUrlGroup (s : List Char) : Bool :=
  ((palt pFullForm pShortForm) s).any List.isEmpty

/-! ## `getUrlAtTextEnd` and the typing-path trigger predicate -/

/-- Scan of `exec` start positions greater than zero: group 1's `\s`
alternative consumes one whitespace character, and group 2 is the rest of the
text; positions are tried left to right. -/
def scanAfterSpace : List Char → Option (List Char)
  | [] => none
  | c :: rest =>
    if isSpaceJS c && matchesUrlGroup rest then some rest else scanAfterSpace rest

/-- Source function `getUrlAtTextEnd(text)`: `URL_REG_EXP.exec(text)` and the capture of
group 2 (`URL_GROUP_IN_MATCH = 2`) on success.  Start position zero tries
group 1's zero-width `^` first, making the whole text the candidate; later
start positions are the `scanAfterSpace` scan. -/
def getUrlAtTextEnd (text : List Char) : Option (List Char) :=
  if matchesUrlGroup text then some text else scanAfterSpace text

/-- Constant `MIN_LINK_LENGTH_WITH_SPACE_AT_END` from the source. -/
def MIN_LINK_LENGTH_WITH_SPACE_AT_END : Nat := 4

/-- Source function `isSingleSpaceAtTheEnd(text)`: length above the minimum, last character
a space, the character before it not a space.  Out-of-range JavaScript
indexing yields `undefined`, embedded as `none`, which compares unequal to a
space just as `undefined !== ' '` does. -/
def isSingleSpaceAtTheEnd (text : List Char) : Bool :=
  decide (MIN_LINK_LENGTH_WITH_SPACE_AT_END < text.length) &&
  (text[text.length - 1]? == some ' ') &&
  !(text[text.length - 2]? == some ' ')

/-- The `TextWatcher` test callback installed by `_enableTypingHandling`:
require a single trailing space, strip it (`text.substr(0, text.length - 1)`)
and run the matcher; the returned `url` is the matched text. -/
def typingTestCallback (text : List Char) : Option (List Char) :=
  if !isSingleSpaceAtTheEnd text then none
  else getUrlAtTextEnd (text.take (text.length - 1))

/-! ## Editor-state model for the `AutoLink` plugin class -/

/-- A model range over document positions, `start` inclusive, `stop`
exclusive; `stop` embeds the source's `end` field. -/
structure MRange where
  start : Int
  stop : Int
deriving DecidableEq

/-- Modelled from the spec: position arithmetic "shift-by-offset" of the
external document model (`getShiftedBy`): positions are integer offsets and
the shift is added. -/
def getShiftedBy (pos shift : Int) : Int :=
  pos + shift

/-- A text node of the model document: one character together with its
optional `linkHref` attribute. -/
structure TextNode where
  char : Char
  linkHref : Option (List Char)
deriving DecidableEq

/-- The document: a sequence of text nodes addressed by integer offsets. -/
abbrev Document := List TextNode

/-- The plugin-relevant editor state: the controller's `isEnabled` flag, the
external schema oracle for `checkAttributeInSelection`, the
`link.defaultProtocol` configuration entry, the document, and whether
`requestUndoOnBackspace()` has been issued to the `Delete` plugin. -/
structure EditorState where
  isEnabled : Bool
  schemaAllowsLinkOn : MRange → Bool
  defaultProtocol : Option (List Char)
  doc : Document
  undoOnBackspaceRequested : Bool

/-- Case-insensitive literal test used by the spec-modelled
protocol helpers: does the second list start with the first? -/
def startsWithCI : List Char → List Char → Bool
  | [], _ => true
  | _ :: _, [] => false
  | a :: as, c :: cs => a.toLower == c.toLower && startsWithCI as cs

/-- Modelled from the spec: `linkHasProtocol` from `./utils` (not under
`src/`) — "does the result carry a protocol"; the protocols of the grammar
(`http://`, `https://`, `ftp://`), an e-mail's `mailto:`, and the
protocol-relative `//`. -/
def linkHasProtocol (link : List Char) : Bool :=
  startsWithCI ("http://".toList) link ||
  startsWithCI ("https://".toList) link ||
  startsWithCI ("ftp://".toList) link ||
  startsWithCI ("mailto:".toList) link ||
  startsWithCI ("//".toList) link

/-- Modelled from the spec: a candidate that is "clearly an email address"
for the normalizer — it contains an `@`. -/
def isEmailLike (link : List Char) : Bool :=
  link.contains '@'

/-- Modelled from the spec: `addLinkProtocolIfApplicable` from `./utils`
(not under `src/`) — an email-like candidate is qualified with `mailto:`,
otherwise the configured default protocol is prepended when the candidate
does not already carry a protocol; never fails, worst case the input is
returned unchanged. -/
def addLinkProtocolIfApplicable (link : List Char) (defaultProtocol : Option (List Char)) :
    List Char :=
  let protocol := if isEmailLike link then some ("mailto:".toList) else defaultProtocol
  if linkHasProtocol link then link
  else
    match protocol with
    | some p => p ++ link
    | none => link

/-- Set the `linkHref` attribute to `url` on every node whose offset lies in
`range` (`writer.setAttribute('linkHref', url, range)`), walking the document
from offset `i`. -/
def setLinkHrefFrom (url : List Char) (range : MRange) : Int → Document → Document
  | _, [] => []
  | i, node :: rest =>
    (if range.start ≤ i && i < range.stop then { node with linkHref := some url } else node) ::
      setLinkHrefFrom url range (i + 1) rest

/-- Source call `writer.setAttribute('linkHref', url, range)` over the whole document. -/
def setLinkHref (url : List Char) (range : MRange) (doc : Document) : Document :=
  setLinkHrefFrom url range 0 doc

/-- Engine accessor `position.nodeAfter`: the node at the position's offset, if any. -/
def nodeAfter (doc : Document) (pos : Int) : Option TextNode :=
  if pos < 0 then none else doc[pos.toNat]?

/-- Source function `linkIsAlreadySet(range)`: the node directly after `range.start` exists
and carries the `linkHref` attribute. -/
def linkIsAlreadySet (range : MRange) (doc : Document) : Bool :=
  match nodeAfter doc range.start with
  | some item => item.linkHref.isSome
  | none => false

/-- Source function `isLinkAllowedOnRange(range, model)`: the external schema check
`model.schema.checkAttributeInSelection(model.createSelection(range),
'linkHref')`, embedded as the state's schema oracle applied to the range. -/
def isLinkAllowedOnRange (range : MRange) (st : EditorState) : Bool :=
  st.schemaAllowsLinkOn range

/-- Source method `_persistAutoLink(url, range)`: inside one enqueued change, set the
attribute over the range and, as the nested second step, request
undo-on-backspace from the `Delete` plugin; embedded as a single state
transformation. -/
def persistAutoLink (url : List Char) (range : MRange) (st : EditorState) : EditorState :=
  { st with
    doc := setLinkHref url range st.doc
    undoOnBackspaceRequested := true }

/-- Source method `_applyAutoLink(url, range)`: qualify the URL, then commit through
`_persistAutoLink` unless one of the four guards rejects. -/
def applyAutoLink (url : List Char) (range : MRange) (st : EditorState) : EditorState :=
  let fullUrl := addLinkProtocolIfApplicable url st.defaultProtocol
  if !st.isEnabled || !isLinkAllowedOnRange range st || !linkHasProtocol fullUrl ||
      linkIsAlreadySet range st.doc then
    st
  else
    persistAutoLink fullUrl range st

/-- The `matched:data` handler of `_enableTypingHandling`: the link range
ends one position before the watched range's end (the just-typed space) and
starts `url.length` positions earlier. -/
def typingMatchedRange (watchedRange : MRange) (url : List Char) : MRange :=
  let linkEnd := getShiftedBy watchedRange.stop (-1)
  let linkStart := getShiftedBy linkEnd (-(url.length : Int))
  MRange.mk linkStart linkEnd

/-- The `matched:data` handler: discard non-typing batches, otherwise apply
the autolink over `typingMatchedRange`. -/
def matchedDataHandler (batchIsTyping : Bool) (watchedRange : MRange) (url : List Char)
    (st : EditorState) : EditorState :=
  if !batchIsTyping then st
  else applyAutoLink url (typingMatchedRange watchedRange url) st

/-- Source method `_checkAndApplyAutoLinkOnRange`, range-computation part: `getLastTextLine`
is an external collaborator (modelled from the spec: it resolves the plain
text and the covering range of the line ending at the given position), so its
output `(text, lineRange)` is taken as input; on a match the link range is the
trailing `url.length` positions of the line range. -/
def checkAutoLinkRangeOnLine (text : List Char) (lineRange : MRange) :
    Option (List Char × MRange) :=
  match getUrlAtTextEnd text with
  | some url =>
    some (url, MRange.mk (getShiftedBy lineRange.stop (-(url.length : Int))) lineRange.stop)
  | none => none

/-- Source method `_checkAndApplyAutoLinkOnRange(rangeToCheck)` acting on the state. -/
def checkAndApplyAutoLinkOnRange (text : List Char) (lineRange : MRange)
    (st : EditorState) : EditorState :=
  match checkAutoLinkRangeOnLine text lineRange with
  | some (url, linkRange) => applyAutoLink url linkRange st
  | none => st

/-- One typing-path step of the composed system.  Modelled from the spec:
a `TextWatcher` whose `isEnabled` is `false` performs no matching work and
emits no events; its `isEnabled` is bound one-way to the controller's, so the
gate reads the controller's flag.  When enabled, the watcher runs
`typingTestCallback` on the line text and, on a match, fires `matched:data`
with the watched range and batch. -/
def typingStep (st : EditorState) (lineText : List Char) (batchIsTyping : Bool)
    (watchedRange : MRange) : EditorState :=
  if !st.isEnabled then st
  else
    match typingTestCallback lineText with
    | none => st
    | some url => matchedDataHandler batchIsTyping watchedRange url st

/-- A node of the external model tree, as far as
`selection.anchor.parent.is('element', 'codeBlock')` observes it. -/
structure ModelNode where
  isElement : Bool
  name : List Char
deriving DecidableEq

/-- The `change:range` listener installed by `init`: disable the plugin
when the selection anchor's parent is a `codeBlock` element. -/
def selectionChangeHandler (anchorParent : ModelNode) (st : EditorState) : EditorState :=
  { st with isEnabled := !(anchorParent.isElement && anchorParent.name == "codeBlock".toList) }

/-! ## Helper lemmas -/

/-- A successful `scanAfterSpace` result is a suffix of its input. -/
theorem scanAfterSpace_isSuffix :
    ∀ (t r : List Char), scanAfterSpace t = some r → List.IsSuffix r t := by
  intro t
  induction t with
  | nil => intro r h; simp [scanAfterSpace] at h
  | cons c rest ih =>
    intro r h
    rw [scanAfterSpace] at h
    by_cases hc : (isSpaceJS c && matchesUrlGroup rest) = true
    · rw [if_pos hc] at h
      injection h with h
      subst h
      exact List.suffix_cons c rest
    · rw [if_neg hc] at h
      exact (ih r h).trans (List.suffix_cons c rest)

/-- Element lookups at the last two offsets of a list ending in two given
elements. -/
theorem getElem?_append_two (ys : List Char) (a b : Char) :
    (ys ++ [a, b])[ys.length]? = some a ∧ (ys ++ [a, b])[ys.length + 1]? = some b := by
  induction ys with
  | nil => exact ⟨rfl, rfl⟩
  | cons c t ih => simpa using ih

/-- Every list of length at least two ends in two elements. -/
theorem exists_last_two {l : List Char} (h : 2 ≤ l.length) :
    ∃ ys a b, l = ys ++ [a, b] := by
  rcases hr : l.reverse with _ | ⟨b, t1⟩
  · rw [List.reverse_eq_nil_iff] at hr
    subst hr
    simp at h
  · rcases t1 with _ | ⟨a, t⟩
    · have hl : l = [b] := by
        rw [← l.reverse_reverse, hr]
        rfl
      subst hl
      simp at h
    · refine ⟨t.reverse, a, b, ?_⟩
      rw [← l.reverse_reverse, hr]
      simp

/-! ## Claim theorems -/

/-- C1 counterexample: for the input text "see example.com" (a scheme-less
domain preceded by whitespace) the pattern matcher returns no match at all,
not the substring "example.com": the full form's `//` is mandatory, and the
short form requires a `www`-like opener or a `@`. -/
theorem getUrlAtTextEnd_schemeless_counterexample :
    getUrlAtTextEnd ("see example.com".toList) = none := by decide

/-- C1 (amended): for the input "see example.com" the pattern matcher
returns no match — in the full form only the scheme name in front of the
mandatory `//` is optional, so a bare domain ending the text does not match;
a protocol-relative "//example.com" and a "www."-prefixed domain do match,
and the (spec-modelled) protocol normalizer with `link.defaultProtocol`
set to "https://" turns the scheme-less match "www.example.com" into
"https://www.example.com", which carries a protocol. -/
theorem getUrlAtTextEnd_schemeless_amended :
    getUrlAtTextEnd ("see example.com".toList) = none ∧
    getUrlAtTextEnd ("see //example.com".toList) = some ("//example.com".toList) ∧
    getUrlAtTextEnd ("see www.example.com".toList) = some ("www.example.com".toList) ∧
    addLinkProtocolIfApplicable ("www.example.com".toList) (some ("https://".toList)) =
      ("https://www.example.com".toList) ∧
    linkHasProtocol ("https://www.example.com".toList) = true :=
  ⟨by decide, by decide, by decide, by decide, by decide⟩

/-- C2: `isSingleSpaceAtTheEnd text` is true exactly when the text is longer
than four characters, its last character is a space and its second-to-last
character is not a space. -/
theorem isSingleSpaceAtTheEnd_iff (text : List Char) :
    isSingleSpaceAtTheEnd text = true ↔
      4 < text.length ∧ ∃ ys a, text = ys ++ [a, ' '] ∧ a ≠ ' ' := by
  constructor
  · intro h
    simp only [isSingleSpaceAtTheEnd, MIN_LINK_LENGTH_WITH_SPACE_AT_END, Bool.and_eq_true,
      decide_eq_true_eq, beq_iff_eq, Bool.not_eq_true', beq_eq_false_iff_ne] at h
    obtain ⟨⟨hlen, hlast⟩, hsecond⟩ := h
    obtain ⟨ys, a, b, rfl⟩ := exists_last_two (l := text) (by omega)
    have hL : (ys ++ [a, b]).length = ys.length + 2 := by simp
    have h1 : (ys ++ [a, b]).length - 1 = ys.length + 1 := by omega
    have h2 : (ys ++ [a, b]).length - 2 = ys.length := by omega
    rw [h1, (getElem?_append_two ys a b).2] at hlast
    rw [h2, (getElem?_append_two ys a b).1] at hsecond
    injection hlast with hb
    subst hb
    refine ⟨hlen, ys, a, rfl, ?_⟩
    intro ha
    exact hsecond (by rw [ha])
  · rintro ⟨hlen, ys, a, rfl, hne⟩
    have hL : (ys ++ [a, ' ']).length = ys.length + 2 := by simp
    have h1 : (ys ++ [a, ' ']).length - 1 = ys.length + 1 := by omega
    have h2 : (ys ++ [a, ' ']).length - 2 = ys.length := by omega
    simp only [isSingleSpaceAtTheEnd, MIN_LINK_LENGTH_WITH_SPACE_AT_END, h1, h2,
      (getElem?_append_two ys a ' ').1, (getElem?_append_two ys a ' ').2, Bool.and_eq_true,
      decide_eq_true_eq, beq_iff_eq, Bool.not_eq_true', beq_eq_false_iff_ne]
    refine ⟨⟨hlen, trivial⟩, ?_⟩
    intro hcontra
    injection hcontra with hcontra
    exact hne hcontra

/-- C3: a non-null result of `getUrlAtTextEnd` is always a suffix of the
input (the match is anchored at the end and preceded by start-of-line or
whitespace), and a trailing candidate that is bare `www.` with nothing after
it is never matched. -/
theorem getUrlAtTextEnd_suffix_and_bare_www :
    (∀ (text r : List Char), getUrlAtTextEnd text = some r → List.IsSuffix r text) ∧
    getUrlAtTextEnd ("www.".toList) = none ∧
    getUrlAtTextEnd ("http://www.".toList) = none ∧
    getUrlAtTextEnd ("foo www.".toList) = none := by
  refine ⟨?_, by decide, by decide, by decide⟩
  intro text r h
  rw [getUrlAtTextEnd] at h
  by_cases hm : matchesUrlGroup text = true
  · rw [if_pos hm] at h
    injection h with h
    subst h
    exact List.suffix_refl text
  · rw [if_neg hm] at h
    exact scanAfterSpace_isSuffix text r h

/-- Witness for C3: the concrete match "www.foo.com" found at the end of
"x www.foo.com" is a suffix of that text. -/
theorem getUrlAtTextEnd_suffix_witness :
    List.IsSuffix ("www.foo.com".toList) ("x www.foo.com".toList) :=
  getUrlAtTextEnd_suffix_and_bare_www.1 ("x www.foo.com".toList) ("www.foo.com".toList)
    (by decide)

/-- C10: because the short form writes `www.` with an unescaped dot, the
input "wwwXfoo.com" — which does not start with the literal "www.", contains
no `@` and carries no scheme — is nevertheless matched whole, the `X` being
consumed by the `.` metacharacter. -/
theorem getUrlAtTextEnd_unescaped_dot :
    getUrlAtTextEnd ("wwwXfoo.com".toList) = some ("wwwXfoo.com".toList) ∧
    ("wwwXfoo.com".toList).take 4 ≠ ("www.".toList) ∧
    ("wwwXfoo.com".toList).contains '@' = false ∧
    linkHasProtocol ("wwwXfoo.com".toList) = false :=
  ⟨by decide, by decide, by decide, by decide⟩

/-- Full-string acceptance by the first-octet fragment of the IPv4
alternative. -/
def octetFirstAccepts (s : List Char) : Bool :=
  (pOctetFirst s).any List.isEmpty

set_option maxRecDepth 10000 in
/-- C4: the first-octet fragment of the IPv4 branch accepts the decimal
representation of an octet value exactly when it lies in 1–223 (so 0.0.0.0
and every address at or above 224.0.0.0 is rejected), and concretely
"http://192.168.1.1" is matched while "http://224.0.0.1", "http://0.0.0.0"
and "http://255.255.255.255" are not. -/
theorem ipv4_first_octet_range :
    (∀ n : Nat, n < 256 →
      (octetFirstAccepts (Nat.toDigits 10 n) = true ↔ 1 ≤ n ∧ n ≤ 223)) ∧
    getUrlAtTextEnd ("http://192.168.1.1".toList) = some ("http://192.168.1.1".toList) ∧
    getUrlAtTextEnd ("http://224.0.0.1".toList) = none ∧
    getUrlAtTextEnd ("http://0.0.0.0".toList) = none ∧
    getUrlAtTextEnd ("http://255.255.255.255".toList) = none := by
  refine ⟨by decide, by decide, by decide, by decide, by decide⟩

/-- Witness for C4: the fragment accepts the in-range first octet 192. -/
theorem ipv4_first_octet_range_witness :
    octetFirstAccepts (Nat.toDigits 10 192) = true :=
  (ipv4_first_octet_range.1 192 (by decide)).mpr (by decide)

/-- C5: `_applyAutoLink` leaves the state unchanged unless all four
eligibility conditions hold (enabled, schema permits, normalized URL carries
a protocol, range start not already linked), and every run either returns
the state untouched or performs the full `_persistAutoLink` commit — there
is no partial application and no surfaced error. -/
theorem applyAutoLink_gating :
    ∀ (url : List Char) (range : MRange) (st : EditorState),
      (¬(st.isEnabled = true ∧ isLinkAllowedOnRange range st = true ∧
          linkHasProtocol (addLinkProtocolIfApplicable url st.defaultProtocol) = true ∧
          linkIsAlreadySet range st.doc = false) →
        applyAutoLink url range st = st) ∧
      (applyAutoLink url range st = st ∨
        applyAutoLink url range st =
          persistAutoLink (addLinkProtocolIfApplicable url st.defaultProtocol) range st) := by
  intro url range st
  constructor
  · intro hrej
    cases hE : st.isEnabled with
    | false => simp [applyAutoLink, hE]
    | true =>
      cases hA : isLinkAllowedOnRange range st with
      | false => simp [applyAutoLink, hA]
      | true =>
        cases hP : linkHasProtocol (addLinkProtocolIfApplicable url st.defaultProtocol) with
        | false => simp [applyAutoLink, hP]
        | true =>
          cases hL : linkIsAlreadySet range st.doc with
          | true => simp [applyAutoLink, hL]
          | false => exact absurd ⟨hE, hA, hP, hL⟩ hrej
  · simp only [applyAutoLink]
    split
    · exact Or.inl rfl
    · exact Or.inr rfl

/-- Witness for C5: with the plugin disabled, applying over an empty sample
state is a no-op. -/
theorem applyAutoLink_gating_witness :
    applyAutoLink ("www.foo.com".toList) (MRange.mk 0 11)
      (EditorState.mk false (fun _ => true) none [] false) =
      EditorState.mk false (fun _ => true) none [] false :=
  (applyAutoLink_gating ("www.foo.com".toList) (MRange.mk 0 11)
    (EditorState.mk false (fun _ => true) none [] false)).1
    (by intro h; exact absurd h.1 (by decide))

/-- C6: when the node directly after `range.start` already carries the
`linkHref` attribute, `_applyAutoLink` is a no-op: re-running the pipeline
over a range that starts inside an existing link leaves the state
unchanged. -/
theorem applyAutoLink_alreadyLinked_noop :
    ∀ (url : List Char) (range : MRange) (st : EditorState),
      linkIsAlreadySet range st.doc = true → applyAutoLink url range st = st := by
  intro url range st h
  simp [applyAutoLink, h]

/-- Witness for C6: a one-node document whose first character is already
linked is left unchanged. -/
theorem applyAutoLink_alreadyLinked_noop_witness :
    applyAutoLink ("www.foo.com".toList) (MRange.mk 0 3)
      (EditorState.mk true (fun _ => true) none
        [TextNode.mk 'a' (some ("http://a.bc".toList))] false) =
      EditorState.mk true (fun _ => true) none
        [TextNode.mk 'a' (some ("http://a.bc".toList))] false :=
  applyAutoLink_alreadyLinked_noop ("www.foo.com".toList) (MRange.mk 0 3)
    (EditorState.mk true (fun _ => true) none
      [TextNode.mk 'a' (some ("http://a.bc".toList))] false) (by decide)

/-- C7: every link range handed to `_applyAutoLink` spans exactly
`url.length` positions; on the typing path it moreover ends one position
before the watched range's end, excluding the just-typed space, and on the
Enter/Shift+Enter path it ends at the checked line range's end. -/
theorem linkRange_length_invariant :
    (∀ (watchedRange : MRange) (url : List Char),
      (typingMatchedRange watchedRange url).stop - (typingMatchedRange watchedRange url).start =
        (url.length : Int) ∧
      (typingMatchedRange watchedRange url).stop = watchedRange.stop - 1) ∧
    (∀ (text : List Char) (lineRange : MRange) (url : List Char) (r : MRange),
      checkAutoLinkRangeOnLine text lineRange = some (url, r) →
        r.stop - r.start = (url.length : Int) ∧ r.stop = lineRange.stop) := by
  constructor
  · intro wr url
    constructor
    · simp only [typingMatchedRange, getShiftedBy]
      omega
    · simp only [typingMatchedRange, getShiftedBy]
      omega
  · intro text lr url r h
    rw [checkAutoLinkRangeOnLine] at h
    cases hu : getUrlAtTextEnd text with
    | none =>
      rw [hu] at h
      exact absurd h (by simp)
    | some u =>
      rw [hu] at h
      simp only [Option.some.injEq, Prod.mk.injEq] at h
      obtain ⟨hu2, hr⟩ := h
      subst hu2
      subst hr
      constructor
      · simp only [getShiftedBy]
        omega
      · rfl

/-- Witness for C7: the concrete line "x www.foo.com" covered by positions
0 to 13 yields the link range from 2 to 13, of length 11. -/
theorem linkRange_length_invariant_witness :
    (MRange.mk 2 13).stop - (MRange.mk 2 13).start = (("www.foo.com".toList).length : Int) ∧
    (MRange.mk 2 13).stop = (MRange.mk 0 13).stop :=
  linkRange_length_invariant.2 ("x www.foo.com".toList) (MRange.mk 0 13)
    ("www.foo.com".toList) (MRange.mk 2 13) (by decide)

/-- C8: the `change:range` listener recomputes the controller's enablement
as "the selection anchor's parent is not a codeBlock element", and the
typing-path watcher, whose enablement mirrors the controller's through the
one-way binding, never changes the state while the controller is
disabled. -/
theorem enablement_state_invariant :
    (∀ (anchorParent : ModelNode) (st : EditorState),
      (selectionChangeHandler anchorParent st).isEnabled = true ↔
        ¬(anchorParent.isElement = true ∧ anchorParent.name = ("codeBlock".toList))) ∧
    (∀ (st : EditorState) (lineText : List Char) (batchIsTyping : Bool)
        (watchedRange : MRange),
      st.isEnabled = false → typingStep st lineText batchIsTyping watchedRange = st) := by
  constructor
  · intro p st
    rcases p with ⟨pel, pname⟩
    cases pel <;> simp [selectionChangeHandler]
  · intro st lt b wr h
    simp [typingStep, h]

/-- Witness for C8: a disabled state swallows a typing step that would
otherwise produce a link. -/
theorem enablement_state_invariant_witness :
    typingStep (EditorState.mk false (fun _ => true) none [] false)
      ("x www.foo.com ".toList) true (MRange.mk 0 14) =
      EditorState.mk false (fun _ => true) none [] false :=
  enablement_state_invariant.2 (EditorState.mk false (fun _ => true) none [] false)
    ("x www.foo.com ".toList) true (MRange.mk 0 14) rfl

/-- C9: a `matched:data` event whose batch is not a typing batch never
results in a link: the handler returns the state unchanged before computing
any range or calling `_applyAutoLink`, and therefore so does the whole
typing-path step. -/
theorem nonTyping_batch_never_links :
    (∀ (watchedRange : MRange) (url : List Char) (st : EditorState),
      matchedDataHandler false watchedRange url st = st) ∧
    (∀ (st : EditorState) (lineText : List Char) (watchedRange : MRange),
      typingStep st lineText false watchedRange = st) := by
  constructor
  · intro wr url st
    rfl
  · intro st lt wr
    simp only [typingStep]
    split
    · rfl
    · cases htc : typingTestCallback lt with
      | none => simp [htc]
      | some u => simp [htc, matchedDataHandler]
